import Mathlib

/-!
Verification of `bundle_osx.py` (conda-bundler): a shallow embedding of the
pure content of the bundling pipeline, plus theorems about it.

Filesystem-independent computations (path manipulation, string templating,
command-line construction) are embedded directly.  Steps that mutate the
filesystem or run subprocesses are embedded as pure functions over explicit
state (a tree model of directories, exit codes of the external tools as
parameters), with one simplification noted where it occurs: symbolic links
are carried as opaque leaves and never resolved, and the theorems carry
hypotheses excluding them from the decision points where the Python code
would have to resolve them.
-/

/-- Process environment relevant to `os.path`: the `HOME` variable, the
current working directory, and the `pwd` database used by `~user` expansion
(`none` means unknown user).  `home` models `os.environ["HOME"]`, assumed
present. -/
structure PEnv where
  home : String
  cwd : String
  users : String → Option String

/-- One step of splitting on `/`: prepend character `c` to an already-split
tail. -/
def splitSlCons (c : Char) (r : List (List Char)) : List (List Char) :=
  if c = '/' then [] :: r
  else
    match r with
    | [] => [[c]]
    | h :: t => (c :: h) :: t

/-- Split a character list on `/`, like Python's `str.split("/")`. -/
def splitSl : List Char → List (List Char)
  | [] => [[]]
  | c :: cs => splitSlCons c (splitSl cs)

/-- Join components with single slashes (`"/".join(comps)`). -/
def joinComps : List (List Char) → List Char
  | [] => []
  | [c] => c
  | c :: rest => c ++ '/' :: joinComps rest

/-- One step of `posixpath.normpath`'s component loop. -/
def normAcc (slashes : Nat) (acc : List (List Char)) (comp : List Char) : List (List Char) :=
  if comp = [] ∨ comp = ['.'] then acc
  else if comp ≠ ['.', '.'] ∨ (slashes = 0 ∧ acc = []) ∨ (acc ≠ [] ∧ acc.getLast? = some ['.', '.']) then
    acc ++ [comp]
  else if acc ≠ [] then acc.dropLast
  else acc

/-- Number of leading slashes kept by `posixpath.normpath` (1 for `/x`,
2 for `//x`, 1 again for `///x`, 0 for relative paths). -/
def slashCount (p : List Char) : Nat :=
  if p.take 1 = ['/'] then (if p.take 2 = ['/', '/'] ∧ p.take 3 ≠ ['/', '/', '/'] then 2 else 1)
  else 0

/-- Reassemble the normalized component list with its leading slashes; an
empty result becomes `.`. -/
def normAssemble (slashes : Nat) (comps : List (List Char)) : List Char :=
  if List.replicate slashes '/' ++ joinComps comps = [] then ['.']
  else List.replicate slashes '/' ++ joinComps comps

/-- `posixpath.normpath` on character lists. -/
def normpathL (p : List Char) : List Char :=
  if p = [] then ['.']
  else normAssemble (slashCount p) ((splitSl p).foldl (normAcc (slashCount p)) [])

/-- `posixpath.join` for two arguments, on character lists. -/
def pjoinL (a b : List Char) : List Char :=
  if b.take 1 = ['/'] then b
  else if a = [] ∨ a.getLast? = some '/' then a ++ b
  else a ++ '/' :: b

/-- Trailing strip over a character set, like Python's `str.rstrip(chars)`. -/
def rstripL (cs : List Char) (l : List Char) : List Char :=
  (l.reverse.dropWhile (fun c => c ∈ cs)).reverse

/-- Leading strip over a character set, like Python's `str.lstrip(chars)`. -/
def lstripL (cs : List Char) (l : List Char) : List Char :=
  l.dropWhile (fun c => c ∈ cs)

/-- `posixpath.expanduser` on character lists: a leading `~` is replaced by
`HOME`, a leading `~user` by that user's home directory from the `pwd`
database (left untouched when the user is unknown). -/
def expanduserL (env : PEnv) (p : List Char) : List Char :=
  match p with
  | '~' :: rest =>
    let name := rest.takeWhile (fun c => c ≠ '/')
    let tail := rest.drop name.length
    let userhome? : Option (List Char) :=
      if name = [] then some env.home.toList
      else (env.users (String.mk name)).map String.toList
    match userhome? with
    | none => p
    | some uh =>
      let r := rstripL ['/'] uh ++ tail
      if r = [] then ['/'] else r
  | _ => p

/-- String wrapper for `normpathL`. -/
def normpath (s : String) : String := String.mk (normpathL s.toList)

/-- String wrapper for `pjoinL` (two-argument `os.path.join`). -/
def pjoin (a b : String) : String := String.mk (pjoinL a.toList b.toList)

/-- String wrapper for `expanduserL`. -/
def expanduser (env : PEnv) (s : String) : String := String.mk (expanduserL env s.toList)

/-- `posixpath.abspath`: join onto the working directory and normalize. -/
def abspath (env : PEnv) (s : String) : String := normpath (pjoin env.cwd s)

/-- Does the string contain a space character (Python's `" " in s`)? -/
def hasSpace (s : String) : Bool := s.toList.contains ' '

/-- Embedding of `safe_conda_base`: absolutize the build path, suffix
`conda`; return that unless it contains a space, in which case return the
absolutized `~/_temp_conda`. -/
def safe_conda_base (env : PEnv) (buildpath : String) : String :=
  let buildpath := abspath env (expanduser env buildpath)
  let conda_dir := pjoin buildpath "conda"
  if hasSpace conda_dir = false then conda_dir
  else abspath env (expanduser env "~/_temp_conda")

/-- Embedding of the installer invocation inside `install_conda` when no
installation exists yet: the `subprocess.run` argument vector (note the
literal quotes around the prefix argument, from `f'"{conda_dir}"'`), paired
with the value assigned to the process-wide `CONDA_BASE`. -/
def install_conda_cmd (env : PEnv) (buildpath : String) : List String × String :=
  let conda_dir := safe_conda_base env buildpath
  (["bash", pjoin buildpath "miniconda_installer.sh", "-b", "-p",
      "\"" ++ conda_dir ++ "\""],
    conda_dir)

/-- `posixpath.basename`: everything after the last slash. -/
def basenameStr (p : String) : String :=
  String.mk (p.toList.reverse.takeWhile (fun c => ¬ c = '/')).reverse

/-- String wrapper for `rstripL`. -/
def rstripSet (chars s : String) : String := String.mk (rstripL chars.toList s.toList)

/-- String wrapper for stripping a character set from both ends
(Python's `str.strip(chars)`). -/
def stripSet (chars s : String) : String :=
  String.mk (lstripL chars.toList (rstripL chars.toList s.toList))

/-- Default app name computed by `create_info_plist`:
`path.basename(app_path).rstrip(".app")`. -/
def plist_default_app_name (app_path : String) : String :=
  rstripSet ".app" (basenameStr app_path)

/-- App name computed by `create_exe`: `path.basename(app_path).strip(".app")`. -/
def exe_app_name (app_path : String) : String :=
  stripSet ".app" (basenameStr app_path)

/-- Default entry-point script path used by `create_exe` when `pyscript` is
not supplied: `f"Resources/bin/{app_name}"`. -/
def exe_default_pyscript (app_path : String) : String :=
  "Resources/bin/" ++ exe_app_name app_path

/-- `subprocess.check_call` on a process with the given exit code: raises
`CalledProcessError` (carrying the exit code) on a nonzero exit. -/
def check_call (exitCode : Int) : Except Int Unit :=
  if exitCode = 0 then Except.ok () else Except.error exitCode

/-- Embedding of `sign_app`: the codesign exit code is a parameter; the
result is the log lines produced, in an `Except` whose error side would be
an exception escaping the function.  The `try/except CalledProcessError`
of the source catches the only raised error, so the function always
returns `Except.ok`. -/
def sign_app (codesignExit : Int) (target cert_name : String) : Except Int (List String) :=
  let logs0 :=
    if cert_name = "-" then ["No code certificate supplied, using ad-hoc signature"] else []
  let body : Except Int (List String) :=
    if cert_name = "" then Except.ok (logs0 ++ ["Successfully signed " ++ target])
    else
      match check_call codesignExit with
      | Except.ok _ => Except.ok (logs0 ++ ["Successfully signed " ++ target])
      | Except.error er => Except.error er
  match body with
  | Except.ok logs => Except.ok logs
  | Except.error er => Except.ok (logs0 ++ ["App code signing failed: " ++ toString er])

/-- Exit code of `main` as a function of the signing step: after
`sign_app` returns, `main` runs to completion and the process exits 0; an
exception escaping `sign_app` would abort the pipeline nonzero.  (The
steps after signing relevant to claim C4 are infallible.) -/
def main_exit_after_sign (codesignExit : Int) (target cert_name : String) : Nat :=
  match sign_app codesignExit target cert_name with
  | Except.ok _ => 0
  | Except.error _ => 1

/-- Commands issued by `create_env` via `conda_run` / `shutil.rmtree`. -/
inductive EnvCmd where
  | rmtreeEnv (dir : String)
  | condaCreate (args : List String)
  | pipInstall (args : List String)
deriving DecidableEq

/-- Embedding of `create_env` as the sequence of commands it runs.
`envExists` models `path.exists(env_dir)`, `confirmFlag` the `confirm`
parameter, and `userOverwrite` the boolean returned by
`get_confirmation("Environment already exists, overwrite?")`. -/
def create_env_cmds (conda_base app_name pyversion : String) (pip_install : List String)
    (envExists confirmFlag userOverwrite : Bool) : List EnvCmd :=
  let env_dir := pjoin (pjoin conda_base "envs") app_name
  let pre :=
    if envExists && confirmFlag && !userOverwrite then []
    else
      (if envExists then [EnvCmd.rmtreeEnv env_dir] else []) ++
        [EnvCmd.condaCreate ["conda", "create", "-n", app_name, "-c", "conda-forge", "-y",
          "python=" ++ pyversion]]
  let pip_args := if pip_install = [] then [app_name] else pip_install
  pre ++ [EnvCmd.pipInstall (["pip", "install", "--ignore-installed"] ++ pip_args)]

/-- Placeholder token for the app name in the manifest template. -/
def tok_name : String := "\x7b\x7b app_name \x7d\x7d"

/-- Placeholder token for the author. -/
def tok_author : String := "\x7b\x7b app_author \x7d\x7d"

/-- Placeholder token for the icon. -/
def tok_icon : String := "\x7b\x7b app_icon \x7d\x7d"

/-- Placeholder token for the version. -/
def tok_version : String := "\x7b\x7b app_version \x7d\x7d"

/-- Placeholder token for the build year. -/
def tok_year : String := "\x7b\x7b year \x7d\x7d"

/-- Placeholder token for the copyright line. -/
def tok_copyright : String := "\x7b\x7b copyright \x7d\x7d"

/-- Modelled from the spec: the template file `Info.template.plist` is
co-located with the tool and absent from the sources given; per the spec
it contains placeholder tokens for app name, author, icon, version, year,
and copyright, substituted literally. -/
def info_template : String :=
  "<dict><key>CFBundleDisplayName</key><string>" ++ tok_name ++
    "</string><key>CFBundleIdentifier</key><string>org." ++ tok_author ++
    ".app</string><key>CFBundleIconFile</key><string>" ++ tok_icon ++
    "</string><key>CFBundleShortVersionString</key><string>" ++ tok_version ++
    "</string><key>NSHumanReadableCopyright</key><string>Copyright (c) " ++ tok_year ++
    " " ++ tok_copyright ++ "</string></dict>"

/-- Worker for `replaceL`: when `skip` is positive the head character
belongs to an occurrence just replaced and is dropped. -/
def replaceAux (pat rep : List Char) : Nat → List Char → List Char
  | _, [] => []
  | Nat.succ k, _ :: t => replaceAux pat rep k t
  | 0, c :: t =>
    if pat.isPrefixOf (c :: t) = true ∧ pat ≠ [] then
      rep ++ replaceAux pat rep (pat.length - 1) t
    else c :: replaceAux pat rep 0 t

/-- Python's `str.replace` on character lists: replace every occurrence of
`pat`, left to right, non-overlapping. -/
def replaceL (pat rep s : List Char) : List Char := replaceAux pat rep 0 s

/-- Python's `str.replace` on strings. -/
def strReplace (s pat rep : String) : String :=
  String.mk (replaceL pat.toList rep.toList s.toList)

/-- Embedding of the text produced by `create_info_plist`: the chain of
`str.replace` calls over the template, with the source's defaulting of the
app name (via `rstrip(".app")`), author, and copyright.  The build-time
`datetime.now().year` is the `year` parameter. -/
def create_info_plist_text (template app_path app_name icon_name version app_author
    copyright : String) (year : Nat) : String :=
  let app_name := if app_name = "" then plist_default_app_name app_path else app_name
  let t := strReplace template tok_name app_name
  let t := strReplace t tok_author (if app_author = "" then app_name else app_author)
  let t := strReplace t tok_icon icon_name
  let t := strReplace t tok_version version
  let t := strReplace t tok_year (toString year)
  strReplace t tok_copyright (if copyright = "" then app_name ++ " contributors" else copyright)

/-- Number of (possibly overlapping) occurrences of `n` in `hay`. -/
def countOccL (n : List Char) : List Char → Nat
  | [] => 0
  | c :: t => (if n.isPrefixOf (c :: t) then 1 else 0) + countOccL n t

/-- Number of occurrences of `needle` in `hay`, as strings. -/
def countOcc (needle hay : String) : Nat := countOccL needle.toList hay.toList

/-- Substring test on character lists. -/
def isSubL (n : List Char) : List Char → Bool
  | [] => n.isEmpty
  | c :: t => n.isPrefixOf (c :: t) || isSubL n t

/-- Substring test on strings. -/
def containsSub (needle hay : String) : Bool := isSubL needle.toList hay.toList

/-- Filesystem state relevant to `make_dmg`: whether the staging `dmg`
directory beside the bundle exists, whether it already holds the
`Applications` symlink, whether an entry with the bundle's basename is
already staged inside it, and whether the bundle is at its original
location. -/
structure ArchSt where
  stagingExists : Bool
  appsLink : Bool
  stagedBundle : Bool
  bundleAtOrigin : Bool
deriving DecidableEq

/-- Result of `make_dmg`: the returned archive path, the empty-string
return of the failure branch, or an exception escaping the function. -/
inductive MdgOut where
  | ok (dmgFile : String)
  | empty
  | raised (msg : String)
deriving DecidableEq

/-- Embedding of `make_dmg`.  `hdExit`/`hdStderr` are the exit code and
error output of the `hdiutil` subprocess.  `makedirs(..., exist_ok=True)`
always leaves the staging directory existing, so the
`shutil.copytree(app_path, dmg_dir)` of the `keep_app` branch hits an
existing destination and raises `FileExistsError`; `shutil.move` raises
when a same-named entry is already staged.  On exit 0 the staging
directory is deleted recursively and the `.app`→`.dmg` replaced path is
returned; otherwise stderr is logged, staging stays, and `""` is
returned. -/
def make_dmg (st : ArchSt) (app_path : String) (keep_app : Bool) (hdExit : Int)
    (hdStderr : String) : MdgOut × ArchSt × List String :=
  let dmg_file := strReplace app_path ".app" ".dmg"
  let st := { st with stagingExists := true }
  let st := if st.appsLink then st else { st with appsLink := true }
  if keep_app then
    (MdgOut.raised "FileExistsError", st, [])
  else if st.stagedBundle then
    (MdgOut.raised "shutil.Error: destination path already exists", st, [])
  else
    let st := { st with stagedBundle := true, bundleAtOrigin := false }
    if hdExit = 0 then
      (MdgOut.ok dmg_file,
        { st with stagingExists := false, appsLink := false, stagedBundle := false },
        ["Creating DMG archive...", "DMG successfully created"])
    else
      (MdgOut.empty, st,
        ["Creating DMG archive...", "DMG creation failed: " ++ hdStderr])

/-- Modelled from the spec's wording, for comparison: the archive path is
the bundle path with its trailing `.app` extension replaced by `.dmg`. -/
def specArchiveName (p : String) : String :=
  if ".app".toList.isSuffixOf p.toList then
    String.mk (p.toList.dropLast.dropLast.dropLast.dropLast) ++ ".dmg"
  else p

/-- A filesystem entry: a regular file, a symbolic link (carried as an
opaque leaf, never resolved — the theorems about the Resource Copier carry
hypotheses keeping links away from the places where the Python code would
resolve one), or a directory with an ordered child list (`os.listdir`
order). -/
inductive Ent where
  | file : Ent
  | link (target : String) : Ent
  | dir (children : List (String × Ent)) : Ent

/-- First child with the given name. -/
def lookupChild : List (String × Ent) → String → Option Ent
  | [], _ => none
  | x :: xs, n => if x.1 = n then some x.2 else lookupChild xs n

/-- Look up a path in an entry (`os.path.lexists`-style: no link
traversal). -/
def entLookup : List String → Ent → Option Ent
  | [], e => some e
  | n :: p, Ent.dir cs =>
    match lookupChild cs n with
    | some c => entLookup p c
    | none => none
  | _ :: _, _ => none

/-- Replace (or append) the child of the given name. -/
def setChild : List (String × Ent) → String → Ent → List (String × Ent)
  | [], n, v => [(n, v)]
  | x :: xs, n, v => if x.1 = n then (n, v) :: setChild xs n v else x :: setChild xs n v

/-- `setChild` on a directory entry (identity on non-directories). -/
def setChild1 (e : Ent) (n : String) (v : Ent) : Ent :=
  match e with
  | Ent.dir cs => Ent.dir (setChild cs n v)
  | e => e

/-- Drop every child of the given name. -/
def removeChild : List (String × Ent) → String → List (String × Ent)
  | [], _ => []
  | x :: xs, n => if x.1 = n then removeChild xs n else x :: removeChild xs n

/-- Remove the entry at a path (no-op when the path is missing or passes
through a non-directory). -/
def removePath : List String → Ent → Ent
  | [], e => e
  | [n], Ent.dir cs => Ent.dir (removeChild cs n)
  | _ :: _ :: _, Ent.file => Ent.file
  | _ :: _ :: _, Ent.link t => Ent.link t
  | n :: p :: ps, Ent.dir cs =>
    Ent.dir (cs.map (fun x => if x.1 = n then (x.1, removePath (p :: ps) x.2) else x))
  | [_], e => e

/-- `os.listdir` on the model. -/
def listdirE : Ent → List String
  | Ent.dir cs => cs.map (fun x => x.1)
  | _ => []

/-- Is the entry a directory? -/
def isDirE : Ent → Bool
  | Ent.dir _ => true
  | _ => false

/-- Can `bundle_conda_env` copy this source entry without resolving a
link (`shutil.copytree` for directories, `shutil.copy` for files)? -/
def isCopyable : Option Ent → Bool
  | some (Ent.dir _) => true
  | some Ent.file => true
  | _ => false

/-- Pre-existing destination states the include pass handles: a directory
(removed by `shutil.rmtree`) or nothing. -/
def dirOrAbsent : Option Ent → Bool
  | some (Ent.dir _) => true
  | none => true
  | _ => false

/-- `shutil.rmtree`: recursive delete of a directory; raises on files
(`NotADirectoryError`), symlinks, and missing paths. -/
def rmtreeE (root : Ent) (p : List String) : Except String Ent :=
  match entLookup p root with
  | some (Ent.dir _) => Except.ok (removePath p root)
  | some Ent.file => Except.error "NotADirectoryError"
  | some (Ent.link _) => Except.error "Cannot call rmtree on a symbolic link"
  | none => Except.error "FileNotFoundError"

/-- Copy one top-level entry of the source environment into the
destination: `shutil.copytree(..., symlinks=True)` copies a directory
subtree verbatim (links preserved as links), `shutil.copy` copies a file;
a top-level link would be resolved by `shutil.copy`, which the model
cannot do, and a missing source raises. -/
def copyEntry (envRoot dest : Ent) (item : String) : Except String Ent :=
  match entLookup [item] envRoot with
  | some (Ent.dir cs) => Except.ok (setChild1 dest item (Ent.dir cs))
  | some Ent.file => Except.ok (setChild1 dest item Ent.file)
  | some (Ent.link _) => Except.error "toplevel symlink: unmodelled"
  | none => Except.error "FileNotFoundError"

/-- One iteration of the include loop of `bundle_conda_env`:
`if path.exists(dest): shutil.rmtree(dest)` then copy. -/
def includeItem (envRoot dest : Ent) (item : String) : Except String Ent :=
  match entLookup [item] dest with
  | some _ =>
    match rmtreeE dest [item] with
    | Except.ok d => copyEntry envRoot d item
    | Except.error e => Except.error e
  | none => copyEntry envRoot dest item

/-- The include loop of `bundle_conda_env`. -/
def includePass (envRoot : Ent) : Ent → List String → Except String Ent
  | dest, [] => Except.ok dest
  | dest, i :: rest =>
    match includeItem envRoot dest i with
    | Except.ok d => includePass envRoot d rest
    | Except.error e => Except.error e

/-- Does a glob component contain a magic character? -/
def hasMagic (c : List Char) : Bool :=
  c.any (fun x => x = '*' || x = '?' || x = '[')

/-- Hidden-name rule of `glob`: a magic component matches names starting
with a dot only when the component itself starts with a dot. -/
def hideOk (pat : List Char) (n : String) : Bool :=
  if pat.take 1 = ['.'] then true else decide (n.toList.take 1 ≠ ['.'])

/-- Parse a character class after `[` the way `fnmatch.translate` scans
it: optional `!`, a first body character (even `]`), the rest of the body
up to the closing `]`; `none` when there is no closing bracket (the `[` is
then a literal). -/
def parseClass (l : List Char) : Option (Bool × List Char × List Char) :=
  let slice := match l with
    | '!' :: t => (true, t)
    | _ => (false, l)
  match slice.2 with
  | [] => none
  | c0 :: t =>
    match t.drop ((t.takeWhile (fun c => c ≠ ']')).length) with
    | ']' :: r => some (slice.1, c0 :: t.takeWhile (fun c => c ≠ ']'), r)
    | _ => none

/-- Membership of a character in a parsed class body (with `a-z` ranges,
a trailing `-` literal). -/
def classMatch : List Char → Char → Bool
  | [], _ => false
  | x :: '-' :: y :: rest, c => (decide (x ≤ c) && decide (c ≤ y)) || classMatch rest c
  | x :: rest, c => decide (x = c) || classMatch rest c

/-- `fnmatch.fnmatchcase`, fuelled so that the recursion is structural
(every recursive call shrinks `pattern.length + s.length`, so the fuel
chosen by `fnmatchL` below never runs out). -/
def fnmatchFuel : Nat → List Char → List Char → Bool
  | 0, _, _ => false
  | Nat.succ f, p, s =>
    match p, s with
    | [], s => s.isEmpty
    | '*' :: ps, s =>
      fnmatchFuel f ps s ||
        (match s with
          | [] => false
          | _ :: s2 => fnmatchFuel f ('*' :: ps) s2)
    | '?' :: ps, s =>
      match s with
      | [] => false
      | _ :: s2 => fnmatchFuel f ps s2
    | '[' :: ps, s =>
      match parseClass ps with
      | some (neg, body, rest) =>
        (match s with
          | [] => false
          | c :: s2 => xor neg (classMatch body c) && fnmatchFuel f rest s2)
      | none =>
        match s with
        | [] => false
        | c :: s2 => decide (c = '[') && fnmatchFuel f ps s2
    | a :: ps, s =>
      match s with
      | [] => false
      | c :: s2 => decide (a = c) && fnmatchFuel f ps s2

/-- `fnmatch.fnmatchcase` on character lists. -/
def fnmatchL (p s : List Char) : Bool := fnmatchFuel (p.length + s.length + 1) p s

/-- `glob` of a component list relative to an entry, fuelled on the
number of components (each recursive call drops one component, so the
fuel chosen by `globRel` never runs out).  Magic components scan the
child list with the hidden-name rule and `fnmatch`; literal components
are a bare existence check. -/
def globFromFuel : Nat → List (List Char) → Ent → List (List String)
  | _, [], _ => [[]]
  | 0, _ :: _, _ => []
  | Nat.succ f, c :: rest, e =>
    if hasMagic c then
      match e with
      | Ent.dir cs =>
        cs.flatMap (fun x =>
          if hideOk c x.1 && fnmatchL c x.1.toList then
            (globFromFuel f rest x.2).map (fun m => x.1 :: m)
          else [])
      | _ => []
    else
      match e with
      | Ent.dir cs =>
        match lookupChild cs (String.mk c) with
        | some ce => (globFromFuel f rest ce).map (fun m => String.mk c :: m)
        | none => []
      | _ => []

/-- `glob.glob(path.join(resource_dir, pattern))` relative to the
resource directory entry, as the list of matching relative paths. -/
def globRel (e : Ent) (pattern : String) : List (List String) :=
  globFromFuel (splitSl pattern.toList).length (splitSl pattern.toList) e

/-- Render a relative path for a log line. -/
def joinPath (m : List String) : String := String.intercalate "/" m

/-- One iteration of the delete loop of `bundle_conda_env`'s exclude
pass: `rmtree` a directory match, `remove` a file match, log a missing
match, and catch-and-log a failing delete (`fail` tells which OS deletes
raise `IOError`/`OSError`). -/
def deleteOne (fail : List String → Bool) (st : Ent × List String) (m : List String) :
    Ent × List String :=
  match entLookup m st.1 with
  | some (Ent.dir _) =>
    if fail m then (st.1, st.2 ++ ["could not delete " ++ joinPath m])
    else (removePath m st.1, st.2)
  | some Ent.file =>
    if fail m then (st.1, st.2 ++ ["could not delete " ++ joinPath m])
    else (removePath m st.1, st.2)
  | some (Ent.link _) => (st.1, st.2 ++ ["symlink match: unmodelled"])
  | none => (st.1, st.2 ++ ["File not found: " ++ joinPath m])

/-- Delete every match of one pattern, in order. -/
def deleteFold (fail : List String → Bool) : Ent × List String → List (List String) →
    Ent × List String
  | st, [] => st
  | st, m :: ms => deleteFold fail (deleteOne fail st m) ms

/-- One pattern of the exclude pass: glob, then delete the matches. -/
def deletePattern (fail : List String → Bool) (st : Ent × List String) (pattern : String) :
    Ent × List String :=
  deleteFold fail st (globRel st.1 pattern)

/-- The whole exclude pass. -/
def excludeFold (fail : List String → Bool) : Ent × List String → List String →
    Ent × List String
  | st, [] => st
  | st, pat :: pats => excludeFold fail (deletePattern fail st pat) pats

/-- Embedding of `bundle_conda_env` over the tree model: `envRoot` is the
environment directory, `destRoot` the bundle's `Contents/Resources`
directory; the result carries the final resource tree and the error log
lines, or the exception escaping the include pass. -/
def bundle_conda_env (envRoot destRoot : Ent) (incl excl : List String)
    (fail : List String → Bool) : Except String (Ent × List String) :=
  let items := if incl = [] then listdirE envRoot else incl
  match includePass envRoot destRoot items with
  | Except.ok d => Except.ok (excludeFold fail (d, []) excl)
  | Except.error e => Except.error e

/-- Sample environment tree used to witness the Resource Copier theorem:
a `bin` directory with an entry-point script and a qt4 binary, and a `lib`
directory holding a symlink. -/
def sampleEnv : Ent :=
  Ent.dir [("bin", Ent.dir [("app", Ent.file), ("x-qt4-y", Ent.file)]),
    ("lib", Ent.dir [("liba.so", Ent.link "liba.so.1")])]

/-- Sample pre-existing bundle resource tree: a stale `bin` directory. -/
def sampleDest : Ent := Ent.dir [("bin", Ent.dir [("old", Ent.file)])]

-- ### Theorems

/-- Helper: characters of members of `splitSlCons c r` are `c` or
characters of members of `r`. -/
theorem splitSlCons_mem {a : Char} {r : List (List Char)} {ys : List Char}
    (hy : ys ∈ splitSlCons a r) {c : Char} (hc : c ∈ ys) :
    c = a ∨ ∃ zs ∈ r, c ∈ zs := by
  unfold splitSlCons at hy
  split at hy
  · rcases List.mem_cons.mp hy with h | h
    · subst h; cases hc
    · exact Or.inr ⟨ys, h, hc⟩
  · cases r with
    | nil =>
      rw [List.mem_singleton] at hy
      subst hy
      rcases List.mem_cons.mp hc with h | h
      · exact Or.inl h
      · cases h
    | cons h0 t =>
      rcases List.mem_cons.mp hy with h | h
      · subst h
        rcases List.mem_cons.mp hc with h | h
        · exact Or.inl h
        · exact Or.inr ⟨h0, List.mem_cons_self _ _, h⟩
      · exact Or.inr ⟨ys, List.mem_cons_of_mem _ h, hc⟩

/-- Helper: members of members of `splitSl p` are characters of `p`. -/
theorem splitSl_mem {p : List Char} {ys : List Char} (hy : ys ∈ splitSl p)
    {c : Char} (hc : c ∈ ys) : c ∈ p := by
  induction p generalizing ys with
  | nil =>
    rw [show splitSl [] = [[]] from rfl, List.mem_singleton] at hy
    subst hy; cases hc
  | cons a p ih =>
    rcases splitSlCons_mem (hy : ys ∈ splitSlCons a (splitSl p)) hc with h | ⟨zs, hz, hcz⟩
    · subst h; exact List.mem_cons_self _ _
    · exact List.mem_cons_of_mem _ (ih hz hcz)

/-- Helper: characters of `joinComps ls` are slashes or characters of
members of `ls`. -/
theorem joinComps_mem {ls : List (List Char)} {c : Char} (h : c ∈ joinComps ls) :
    c = '/' ∨ ∃ ys ∈ ls, c ∈ ys := by
  induction ls with
  | nil => cases h
  | cons y ys ih =>
    cases ys with
    | nil => exact Or.inr ⟨y, List.mem_singleton_self y, h⟩
    | cons z zs =>
      have h' : c ∈ y ++ '/' :: joinComps (z :: zs) := h
      rcases List.mem_append.mp h' with h1 | h1
      · exact Or.inr ⟨y, List.mem_cons_self _ _, h1⟩
      · rcases List.mem_cons.mp h1 with h2 | h2
        · exact Or.inl h2
        · rcases ih h2 with h3 | ⟨w, hw, hcw⟩
          · exact Or.inl h3
          · exact Or.inr ⟨w, List.mem_cons_of_mem _ hw, hcw⟩

/-- Helper: the `normAcc` fold only produces components drawn from its
input component list or the initial accumulator. -/
theorem normAcc_fold_mem (s : Nat) (Q : List Char → Prop) :
    ∀ (comps : List (List Char)) (acc : List (List Char)),
      (∀ ys ∈ acc, Q ys) → (∀ ys ∈ comps, Q ys) →
      ∀ ys ∈ comps.foldl (normAcc s) acc, Q ys := by
  intro comps
  induction comps with
  | nil => intro acc hacc _ ys hy; exact hacc ys hy
  | cons c cs ih =>
    intro acc hacc hcomps ys hy
    simp only [List.foldl_cons] at hy
    refine ih (normAcc s acc c) ?_ (fun z hz => hcomps z (List.mem_cons_of_mem _ hz)) ys hy
    intro z hz
    unfold normAcc at hz
    split at hz
    · exact hacc z hz
    · split at hz
      · rcases List.mem_append.mp hz with h | h
        · exact hacc z h
        · rw [List.mem_singleton] at h
          subst h
          exact hcomps z (List.mem_cons_self _ _)
      · split at hz
        · exact hacc z (List.dropLast_subset _ hz)
        · exact hacc z hz

/-- Helper: `normAssemble` produces only slashes, dots, and characters of
its component lists. -/
theorem normAssemble_no_space {s : Nat} {comps : List (List Char)}
    (h : ∀ ys ∈ comps, ' ' ∉ ys) : ' ' ∉ normAssemble s comps := by
  unfold normAssemble
  split
  · simp
  · intro hmem
    rcases List.mem_append.mp hmem with h1 | h1
    · have := List.eq_of_mem_replicate h1
      exact absurd this (by decide)
    · rcases joinComps_mem h1 with h2 | ⟨ys, hys, hcy⟩
      · exact absurd h2 (by decide)
      · exact h ys hys hcy

/-- Helper: `normpathL` introduces no characters beyond slashes and dots;
in particular it preserves space-freeness. -/
theorem normpathL_no_space {p : List Char} (h : ' ' ∉ p) : ' ' ∉ normpathL p := by
  unfold normpathL
  split
  · simp
  · refine normAssemble_no_space ?_
    refine normAcc_fold_mem (slashCount p) (fun zs => ' ' ∉ zs) (splitSl p) [] ?_ ?_
    · intro zs hz; cases hz
    · intro zs hz hsp
      exact h (splitSl_mem hz hsp)

/-- Helper: `pjoinL` introduces no characters beyond slashes and the
characters of the two inputs. -/
theorem pjoinL_no_space {a b : List Char} (ha : ' ' ∉ a) (hb : ' ' ∉ b) :
    ' ' ∉ pjoinL a b := by
  unfold pjoinL
  split
  · exact hb
  · split
    · intro h
      rcases List.mem_append.mp h with h | h
      · exact ha h
      · exact hb h
    · intro h
      rcases List.mem_append.mp h with h | h
      · exact ha h
      · rcases List.mem_cons.mp h with h | h
        · simp at h
        · exact hb h

/-- Helper: `rstripL` returns a subset of its input's characters. -/
theorem rstripL_subset {cs l : List Char} {c : Char} (h : c ∈ rstripL cs l) : c ∈ l := by
  unfold rstripL at h
  rw [List.mem_reverse] at h
  have := List.dropWhile_sublist (l := l.reverse) (p := fun c => c ∈ cs)
  exact List.mem_reverse.mp (this.subset h)

/-- Helper: `rstripL` returns a prefix of its input. -/
theorem rstripL_prefix (cs l : List Char) : rstripL cs l <+: l := by
  unfold rstripL
  have h1 : l.reverse.dropWhile (fun c => c ∈ cs) <:+ l.reverse :=
    List.dropWhile_suffix _
  obtain ⟨t, ht⟩ := h1
  refine ⟨t.reverse, ?_⟩
  have := congrArg List.reverse ht
  rw [List.reverse_append, List.reverse_reverse] at this
  exact this

/-- Helper: `hasSpace` in terms of list membership. -/
theorem hasSpace_eq_false_iff {s : String} : hasSpace s = false ↔ ' ' ∉ s.toList := by
  unfold hasSpace
  simp

/-- Helper: joining onto an absolute second argument ignores the first. -/
theorem pjoinL_abs {a b : List Char} (h : b.take 1 = ['/']) : pjoinL a b = b := by
  unfold pjoinL
  rw [if_pos h]

/-- C1 (amended): `safe_conda_base` returns the `conda`-suffixed
subdirectory of the absolutized build path when that directory has no
space, and the absolutized `~/_temp_conda` fallback when it does; the
fallback is space-free provided the `HOME` value is an absolute path
containing no space (without that proviso the fallback can itself contain
a space, see the counterexample). -/
theorem safe_conda_base_C1 (env : PEnv) (bp : String) :
    (hasSpace (pjoin (abspath env (expanduser env bp)) "conda") = true →
      safe_conda_base env bp = abspath env (expanduser env "~/_temp_conda")) ∧
    (hasSpace (pjoin (abspath env (expanduser env bp)) "conda") = false →
      safe_conda_base env bp = pjoin (abspath env (expanduser env bp)) "conda") ∧
    (env.home.toList.take 1 = ['/'] → hasSpace env.home = false →
      hasSpace (abspath env (expanduser env "~/_temp_conda")) = false) := by
  refine ⟨?_, ?_, ?_⟩
  · intro h
    simp only [safe_conda_base, h]
    simp
  · intro h
    simp only [safe_conda_base, h]
    simp
  · intro hh hsp
    have hdata : "~/_temp_conda".toList = '~' :: "/_temp_conda".toList := rfl
    have hexp : expanduser env "~/_temp_conda" =
        String.mk (rstripL ['/'] env.home.toList ++ "/_temp_conda".toList) := by
      show String.mk (expanduserL env "~/_temp_conda".toList) = _
      rw [hdata]
      refine congrArg String.mk ?_
      simp only [expanduserL]
      have htw : ("/_temp_conda".toList).takeWhile (fun c => c ≠ '/') = [] := by decide
      rw [htw]
      simp only [List.length_nil, List.drop_zero, if_pos rfl, if_true]
      have hne : rstripL ['/'] env.home.toList ++ "/_temp_conda".toList ≠ [] := by
        intro hcon
        have := List.append_eq_nil.mp hcon
        exact absurd this.2 (by decide)
      rw [if_neg hne]
    rw [hexp]
    have hb : ' ' ∉ rstripL ['/'] env.home.toList ++ "/_temp_conda".toList := by
      intro hmem
      rcases List.mem_append.mp hmem with h1 | h1
      · exact hasSpace_eq_false_iff.mp hsp (rstripL_subset h1)
      · exact absurd h1 (by decide)
    have habs : (rstripL ['/'] env.home.toList ++ "/_temp_conda".toList).take 1 = ['/'] := by
      rcases hr : rstripL ['/'] env.home.toList with _ | ⟨c, cs⟩
      · decide
      · have hpre : (c :: cs) <+: env.home.toList := hr ▸ rstripL_prefix ['/'] env.home.toList
        obtain ⟨t, ht⟩ := hpre
        rcases hhome : env.home.toList with _ | ⟨a, r⟩
        · rw [hhome] at hh; simp at hh
        · rw [hhome] at hh
          simp only [List.take, List.take_zero] at hh
          have ha : a = '/' := by
            have := List.cons.injEq a (List.take 0 r) '/' [] ▸ hh
            simpa using hh
          rw [hhome] at ht
          have hc : c = a := by
            cases ht
            rfl
          subst hc; subst ha
          rfl
    show hasSpace (normpath (pjoin env.cwd (String.mk _))) = false
    unfold normpath pjoin
    rw [hasSpace_eq_false_iff]
    show ' ' ∉ normpathL (pjoinL env.cwd.toList (rstripL ['/'] env.home.toList ++ "/_temp_conda".toList))
    rw [pjoinL_abs habs]
    exact normpathL_no_space hb

/-- C1 counterexample: with a home directory containing a space, the
fallback path returned for a spacey build path itself contains a space,
contradicting the claim that the resolved path contains no space in the
fallback case. -/
theorem safe_conda_base_C1_counterexample :
    hasSpace (pjoin (abspath ⟨"/Users/Ann Lee", "/", fun _ => none⟩
        (expanduser ⟨"/Users/Ann Lee", "/", fun _ => none⟩ "/work space")) "conda") = true ∧
    safe_conda_base ⟨"/Users/Ann Lee", "/", fun _ => none⟩ "/work space" =
      "/Users/Ann Lee/_temp_conda" ∧
    hasSpace (safe_conda_base ⟨"/Users/Ann Lee", "/", fun _ => none⟩ "/work space") = true := by
  refine ⟨by decide, by decide, by decide⟩

/-- C1 witness: the amended theorem applied at concrete inputs — a spacey
build path falls back to `~/_temp_conda`, a clean one keeps
`<build>/conda`, and with a space-free absolute home the fallback is
space-free. -/
theorem safe_conda_base_C1_witness :
    safe_conda_base ⟨"/Users/ann", "/", fun _ => none⟩ "/work space" =
      abspath ⟨"/Users/ann", "/", fun _ => none⟩
        (expanduser ⟨"/Users/ann", "/", fun _ => none⟩ "~/_temp_conda") ∧
    safe_conda_base ⟨"/Users/ann", "/", fun _ => none⟩ "/b" =
      pjoin (abspath ⟨"/Users/ann", "/", fun _ => none⟩
        (expanduser ⟨"/Users/ann", "/", fun _ => none⟩ "/b")) "conda" ∧
    hasSpace (abspath ⟨"/Users/ann", "/", fun _ => none⟩
        (expanduser ⟨"/Users/ann", "/", fun _ => none⟩ "~/_temp_conda")) = false :=
  ⟨(safe_conda_base_C1 ⟨"/Users/ann", "/", fun _ => none⟩ "/work space").1 (by decide),
   (safe_conda_base_C1 ⟨"/Users/ann", "/", fun _ => none⟩ "/b").2.1 (by decide),
   (safe_conda_base_C1 ⟨"/Users/ann", "/", fun _ => none⟩ "/b").2.2 (by decide) (by decide)⟩

/-- C2: the default app name is computed with Python's `str.rstrip` /
`str.strip`, which strip a character *set*, not a suffix: the bundle
`papa.app` yields the app name `""` (every character of `papa.app` is in
the set `{'.','a','p'}`), not `papa` as the claim states; the launcher's
default entry-point path collapses to `Resources/bin/` accordingly. -/
theorem app_name_C2_bug :
    plist_default_app_name "/dist/papa.app" = "" ∧
    exe_app_name "/dist/papa.app" = "" ∧
    exe_default_pyscript "/dist/papa.app" = "Resources/bin/" ∧
    ¬ plist_default_app_name "/dist/papa.app" = "papa" ∧
    ¬ exe_app_name "/dist/papa.app" = "papa" := by
  refine ⟨by decide, by decide, by decide, by decide, by decide⟩

/-- C3: when `install_conda` triggers an installation, the `-p` prefix
argument passed to the installer is the resolved path wrapped in literal
double quotes (from the f-string `f'"{conda_dir}"'`), while the recorded
`CONDA_BASE` is the unquoted path, and the two always differ. -/
theorem install_conda_C3 (env : PEnv) (bp : String) :
    (install_conda_cmd env bp).1 =
      ["bash", pjoin bp "miniconda_installer.sh", "-b", "-p",
        "\"" ++ (install_conda_cmd env bp).2 ++ "\""] ∧
    (install_conda_cmd env bp).2 = safe_conda_base env bp ∧
    ¬ ("\"" ++ (install_conda_cmd env bp).2 ++ "\"" = (install_conda_cmd env bp).2) := by
  refine ⟨rfl, rfl, ?_⟩
  intro h
  have hlen := congrArg String.length h
  rw [String.length_append, String.length_append] at hlen
  have h1 : ("\"" : String).length = 1 := by decide
  rw [h1] at hlen
  omega

/-- C3 witness: the installer invocation at a concrete build path. -/
theorem install_conda_C3_witness :
    (install_conda_cmd ⟨"/root", "/", fun _ => none⟩ "/b").1 =
      ["bash", pjoin "/b" "miniconda_installer.sh", "-b", "-p",
        "\"" ++ (install_conda_cmd ⟨"/root", "/", fun _ => none⟩ "/b").2 ++ "\""] ∧
    (install_conda_cmd ⟨"/root", "/", fun _ => none⟩ "/b").2 =
      safe_conda_base ⟨"/root", "/", fun _ => none⟩ "/b" ∧
    ¬ ("\"" ++ (install_conda_cmd ⟨"/root", "/", fun _ => none⟩ "/b").2 ++ "\"" =
        (install_conda_cmd ⟨"/root", "/", fun _ => none⟩ "/b").2) :=
  install_conda_C3 ⟨"/root", "/", fun _ => none⟩ "/b"

/-- C4: a nonzero exit of `codesign` is caught inside `sign_app` — the
function returns normally with the failure logged — and the pipeline's
exit code is still 0. -/
theorem sign_app_C4 (e : Int) (target cert : String) (h : ¬ e = 0) (hc : ¬ cert = "") :
    sign_app e target cert =
      Except.ok ((if cert = "-" then ["No code certificate supplied, using ad-hoc signature"]
          else []) ++ ["App code signing failed: " ++ toString e]) ∧
    ("App code signing failed: " ++ toString e) ∈
      ((if cert = "-" then ["No code certificate supplied, using ad-hoc signature"]
          else []) ++ ["App code signing failed: " ++ toString e]) ∧
    main_exit_after_sign e target cert = 0 := by
  have hs : sign_app e target cert =
      Except.ok ((if cert = "-" then ["No code certificate supplied, using ad-hoc signature"]
          else []) ++ ["App code signing failed: " ++ toString e]) := by
    simp only [sign_app, check_call, if_neg hc, if_neg h]
  refine ⟨hs, List.mem_append_right _ (List.mem_singleton_self _), ?_⟩
  unfold main_exit_after_sign
  rw [hs]

/-- C4 witness: signing with a bad certificate and exit code 1. -/
theorem sign_app_C4_witness :
    sign_app 1 "/dist/demo.app" "BadCert" =
      Except.ok ((if "BadCert" = "-" then ["No code certificate supplied, using ad-hoc signature"]
          else []) ++ ["App code signing failed: " ++ toString (1 : Int)]) ∧
    ("App code signing failed: " ++ toString (1 : Int)) ∈
      ((if "BadCert" = "-" then ["No code certificate supplied, using ad-hoc signature"]
          else []) ++ ["App code signing failed: " ++ toString (1 : Int)]) ∧
    main_exit_after_sign 1 "/dist/demo.app" "BadCert" = 0 :=
  sign_app_C4 1 "/dist/demo.app" "BadCert" (by decide) (by decide)

/-- C9: the pip invocation of `create_env` installs exactly the explicit
list when one is given and exactly the package named after the app
otherwise, and it always carries `--ignore-installed`. -/
theorem create_env_C9 (cb app py : String) (pip : List String) (ex cf uo : Bool) :
    EnvCmd.pipInstall (["pip", "install", "--ignore-installed"] ++
        (if pip = [] then [app] else pip)) ∈ create_env_cmds cb app py pip ex cf uo ∧
    (∀ args, EnvCmd.pipInstall args ∈ create_env_cmds cb app py pip ex cf uo →
      args = ["pip", "install", "--ignore-installed"] ++ (if pip = [] then [app] else pip)) ∧
    (∀ args, EnvCmd.pipInstall args ∈ create_env_cmds cb app py pip ex cf uo →
      "--ignore-installed" ∈ args) := by
  have huniq : ∀ args, EnvCmd.pipInstall args ∈ create_env_cmds cb app py pip ex cf uo →
      args = ["pip", "install", "--ignore-installed"] ++ (if pip = [] then [app] else pip) := by
    intro args harg
    simp only [create_env_cmds] at harg
    rcases List.mem_append.mp harg with h | h
    · exfalso
      split at h
      · cases h
      · rcases List.mem_append.mp h with h1 | h1
        · split at h1
          · exact EnvCmd.noConfusion (List.mem_singleton.mp h1)
          · cases h1
        · exact EnvCmd.noConfusion (List.mem_singleton.mp h1)
    · have := List.mem_singleton.mp h
      injection this with hh
  refine ⟨?_, huniq, ?_⟩
  · simp only [create_env_cmds]
    exact List.mem_append_right _ (List.mem_singleton_self _)
  · intro args harg
    rw [huniq args harg]
    exact List.mem_append_left _ (by decide)

/-- C10: `create_env` runs the pip-install step unconditionally; in the
reuse branch (environment exists, confirmation requested, user declined)
the command sequence is exactly the pip install, with no delete and no
create. -/
theorem create_env_C10 (cb app py : String) (pip : List String) (ex cf uo : Bool) :
    (∃ args, EnvCmd.pipInstall args ∈ create_env_cmds cb app py pip ex cf uo) ∧
    create_env_cmds cb app py pip true true false =
      [EnvCmd.pipInstall (["pip", "install", "--ignore-installed"] ++
        (if pip = [] then [app] else pip))] := by
  constructor
  · refine ⟨["pip", "install", "--ignore-installed"] ++ (if pip = [] then [app] else pip), ?_⟩
    simp only [create_env_cmds]
    exact List.mem_append_right _ (List.mem_singleton_self _)
  · rfl

/-- C8: with inputs name `Foo`, empty author, empty icon, version `1.2.3`
and the (spec-modelled) template containing the six placeholder tokens,
the written manifest contains `Foo` at least twice, contains `1.2.3`, and
contains no unresolved placeholder token. -/
theorem create_info_plist_C8 :
    2 ≤ countOcc "Foo"
      (create_info_plist_text info_template "/dist/Foo.app" "Foo" "" "1.2.3" "" "" 2026) ∧
    containsSub "1.2.3"
      (create_info_plist_text info_template "/dist/Foo.app" "Foo" "" "1.2.3" "" "" 2026) = true ∧
    containsSub tok_name
      (create_info_plist_text info_template "/dist/Foo.app" "Foo" "" "1.2.3" "" "" 2026) = false ∧
    containsSub tok_author
      (create_info_plist_text info_template "/dist/Foo.app" "Foo" "" "1.2.3" "" "" 2026) = false ∧
    containsSub tok_icon
      (create_info_plist_text info_template "/dist/Foo.app" "Foo" "" "1.2.3" "" "" 2026) = false ∧
    containsSub tok_version
      (create_info_plist_text info_template "/dist/Foo.app" "Foo" "" "1.2.3" "" "" 2026) = false ∧
    containsSub tok_year
      (create_info_plist_text info_template "/dist/Foo.app" "Foo" "" "1.2.3" "" "" 2026) = false ∧
    containsSub tok_copyright
      (create_info_plist_text info_template "/dist/Foo.app" "Foo" "" "1.2.3" "" "" 2026) = false := by
  set_option maxRecDepth 20000 in decide

/-- C6 (amended): for the move branch (`keep_app` unset, no stale staged
bundle), `make_dmg` returns on a zero tool exit the path obtained by
replacing every occurrence of the substring `.app` by `.dmg` (which is
extension replacement only when `.app` occurs solely as the trailing
extension, see the counterexample) and deletes the staging directory; on a
nonzero exit it logs the tool's stderr, leaves the staging directory in
place, and returns the empty result without raising. -/
theorem make_dmg_C6 (st : ArchSt) (app hdStderr : String) (hdExit : Int)
    (h : st.stagedBundle = false) :
    (hdExit = 0 →
      (make_dmg st app false hdExit hdStderr).1 = MdgOut.ok (strReplace app ".app" ".dmg") ∧
      (make_dmg st app false hdExit hdStderr).2.1.stagingExists = false) ∧
    (¬ hdExit = 0 →
      (make_dmg st app false hdExit hdStderr).1 = MdgOut.empty ∧
      (make_dmg st app false hdExit hdStderr).2.1.stagingExists = true ∧
      ("DMG creation failed: " ++ hdStderr) ∈ (make_dmg st app false hdExit hdStderr).2.2) := by
  obtain ⟨se, al, sb, bo⟩ := st
  simp only at h
  subst h
  cases al <;> refine ⟨fun he => ?_, fun he => ?_⟩ <;> simp [make_dmg, he]

/-- C6 witness: a clean state, success at exit 0 and failure at exit 1. -/
theorem make_dmg_C6_witness :
    ((0 : Int) = 0 →
      (make_dmg ⟨false, false, false, true⟩ "/dist/demo.app" false 0 "boom").1 =
        MdgOut.ok (strReplace "/dist/demo.app" ".app" ".dmg") ∧
      (make_dmg ⟨false, false, false, true⟩ "/dist/demo.app" false 0 "boom").2.1.stagingExists =
        false) ∧
    (¬ (1 : Int) = 0 →
      (make_dmg ⟨false, false, false, true⟩ "/dist/demo.app" false 1 "boom").1 = MdgOut.empty ∧
      (make_dmg ⟨false, false, false, true⟩ "/dist/demo.app" false 1 "boom").2.1.stagingExists =
        true ∧
      ("DMG creation failed: " ++ "boom") ∈
        (make_dmg ⟨false, false, false, true⟩ "/dist/demo.app" false 1 "boom").2.2) :=
  ⟨(make_dmg_C6 ⟨false, false, false, true⟩ "/dist/demo.app" "boom" 0 rfl).1,
   (make_dmg_C6 ⟨false, false, false, true⟩ "/dist/demo.app" "boom" 1 rfl).2⟩

/-- C6 counterexample: `str.replace(".app", ".dmg")` replaces every
occurrence, not the extension: for the bundle path `/tmp/x.app/demo.app`
the code returns `/tmp/x.dmg/demo.dmg`, not the extension-replaced
`/tmp/x.app/demo.dmg` the claim requires. -/
theorem make_dmg_C6_counterexample :
    (make_dmg ⟨false, false, false, true⟩ "/tmp/x.app/demo.app" false 0 "").1 =
      MdgOut.ok "/tmp/x.dmg/demo.dmg" ∧
    specArchiveName "/tmp/x.app/demo.app" = "/tmp/x.app/demo.dmg" ∧
    ¬ ((make_dmg ⟨false, false, false, true⟩ "/tmp/x.app/demo.app" false 0 "").1 =
      MdgOut.ok (specArchiveName "/tmp/x.app/demo.app")) := by
  refine ⟨by decide, by decide, by decide⟩

/-- C7: with the retain flag set, `make_dmg` never completes the copy —
`shutil.copytree` is called with the just-created staging directory as
destination and raises `FileExistsError`, on a fresh state as well as on a
reused one. -/
theorem make_dmg_C7_keep_raises :
    (make_dmg ⟨false, false, false, true⟩ "/dist/demo.app" true 0 "").1 =
      MdgOut.raised "FileExistsError" ∧
    (make_dmg ⟨true, true, false, true⟩ "/dist/demo.app" true 0 "").1 =
      MdgOut.raised "FileExistsError" := by
  refine ⟨by decide, by decide⟩

/-- Helper: looking up a single-segment path in a directory is a child
lookup. -/
theorem entLookup_single (cs : List (String × Ent)) (n : String) :
    entLookup [n] (Ent.dir cs) = lookupChild cs n := by
  cases h : lookupChild cs n <;> simp [entLookup, h]

/-- Helper: `setChild` stores the value under the given name. -/
theorem lookupChild_setChild_self (cs : List (String × Ent)) (n : String) (v : Ent) :
    lookupChild (setChild cs n v) n = some v := by
  induction cs with
  | nil => simp [setChild, lookupChild]
  | cons x xs ih =>
    by_cases h : x.1 = n
    · simp [setChild, lookupChild, h, ih]
    · simp [setChild, lookupChild, h, ih]

/-- Helper: `setChild` leaves other names untouched. -/
theorem lookupChild_setChild_other (cs : List (String × Ent)) (n b : String) (v : Ent)
    (hb : ¬ b = n) : lookupChild (setChild cs n v) b = lookupChild cs b := by
  have hnb : ¬ n = b := fun hc => hb hc.symm
  induction cs with
  | nil => simp [setChild, lookupChild, hnb]
  | cons x xs ih =>
    by_cases h : x.1 = n
    · have hxb : ¬ x.1 = b := fun hc => hnb (h.symm.trans hc)
      simp [setChild, lookupChild, h, hxb, hnb, ih]
    · by_cases hxb : x.1 = b
      · simp [setChild, lookupChild, h, hxb, hb]
      · simp [setChild, lookupChild, h, hxb, ih]

/-- Helper: lookup after `removeChild`. -/
theorem lookupChild_removeChild (cs : List (String × Ent)) (n b : String) :
    lookupChild (removeChild cs n) b = if b = n then none else lookupChild cs b := by
  induction cs with
  | cons x xs ih =>
    by_cases h : x.1 = n
    · by_cases hb : b = n
      · rw [show removeChild (x :: xs) n = removeChild xs n from by simp [removeChild, h]]
        rw [ih, if_pos hb, if_pos hb]
      · have hxb : ¬ x.1 = b := fun hc => hb (hc.symm.trans h)
        rw [show removeChild (x :: xs) n = removeChild xs n from by simp [removeChild, h]]
        rw [ih, if_neg hb, if_neg hb]
        simp [lookupChild, hxb]
    · rw [show removeChild (x :: xs) n = x :: removeChild xs n from by simp [removeChild, h]]
      by_cases hxb : x.1 = b
      · have hb : ¬ b = n := fun hc => h (hxb.trans hc)
        simp [lookupChild, hxb, hb]
      · simp [lookupChild, hxb, ih]
  | nil => simp [removeChild, lookupChild]

/-- Helper: lookup in a child list mapped by a name-preserving update. -/
theorem lookupChild_mapNamed (cs : List (String × Ent)) (n b : String) (g : Ent → Ent) :
    lookupChild (cs.map (fun x => if x.1 = n then (x.1, g x.2) else x)) b =
      (lookupChild cs b).map (fun v => if b = n then g v else v) := by
  induction cs with
  | nil => simp [lookupChild]
  | cons x xs ih =>
    by_cases h : x.1 = n
    · by_cases hxb : x.1 = b
      · have hbn : b = n := hxb.symm.trans h
        simp [lookupChild, h, hxb, hbn]
      · have hnb : ¬ n = b := fun hc => hxb (h.trans hc)
        have hbn : ¬ b = n := fun hc => hnb hc.symm
        simp [lookupChild, h, hxb, hnb, hbn, ih]
    · by_cases hxb : x.1 = b
      · have hbn : ¬ b = n := fun hc => h (hxb.trans hc)
        simp [lookupChild, h, hxb, hbn]
      · simp [lookupChild, h, hxb, ih]

/-- Helper: path lookup in a directory, cons case. -/
theorem entLookup_cons (n : String) (p : List String) (cs : List (String × Ent)) :
    entLookup (n :: p) (Ent.dir cs) = (lookupChild cs n).bind (fun c => entLookup p c) := by
  cases h : lookupChild cs n <;> simp [entLookup, h]

/-- Helper: `setChild1` stores the value. -/
theorem setChild1_lookup_self (cs : List (String × Ent)) (n : String) (v : Ent) :
    entLookup [n] (setChild1 (Ent.dir cs) n v) = some v := by
  show entLookup [n] (Ent.dir (setChild cs n v)) = some v
  rw [entLookup_single, lookupChild_setChild_self]

/-- Helper: `setChild1` leaves other names untouched. -/
theorem setChild1_lookup_other (e : Ent) (n b : String) (v : Ent) (hb : ¬ b = n) :
    entLookup [b] (setChild1 e n v) = entLookup [b] e := by
  cases e with
  | dir cs =>
    show entLookup [b] (Ent.dir (setChild cs n v)) = _
    rw [entLookup_single, entLookup_single, lookupChild_setChild_other cs n b v hb]
  | file => rfl
  | link t => rfl

/-- Helper: `setChild1` keeps directories directories. -/
theorem setChild1_isDir (cs : List (String × Ent)) (n : String) (v : Ent) :
    isDirE (setChild1 (Ent.dir cs) n v) = true := rfl

/-- Helper: `removePath` keeps directories directories. -/
theorem removePath_isDir (p : List String) (cs : List (String × Ent)) :
    isDirE (removePath p (Ent.dir cs)) = true := by
  cases p with
  | nil => rfl
  | cons n q =>
    cases q with
    | nil => rfl
    | cons q2 qs => rfl

/-- Helper: after `removePath p` the path `p` is gone. -/
theorem removePath_self (p : List String) (e : Ent) :
    p ≠ [] → entLookup p (removePath p e) = none := by
  induction p generalizing e with
  | nil => intro hp; exact absurd rfl hp
  | cons n q ih =>
    intro _
    cases q with
    | nil =>
      cases e with
      | dir cs =>
        show entLookup [n] (Ent.dir (removeChild cs n)) = none
        rw [entLookup_single, lookupChild_removeChild, if_pos rfl]
      | file => rfl
      | link t => rfl
    | cons q2 qs =>
      cases e with
      | dir cs =>
        show entLookup (n :: q2 :: qs)
          (Ent.dir (cs.map (fun x => if x.1 = n then (x.1, removePath (q2 :: qs) x.2) else x))) =
          none
        rw [entLookup_cons, lookupChild_mapNamed]
        cases h : lookupChild cs n with
        | none => simp
        | some v => simp [h, ih v (by simp)]
      | file => rfl
      | link t => rfl

/-- Helper: `removePath p` does not touch paths unrelated to `p` (neither
a prefix nor an extension of it). -/
theorem removePath_unrelated (p : List String) :
    ∀ (q : List String) (e : Ent), ¬ p <+: q → ¬ q <+: p →
      entLookup q (removePath p e) = entLookup q e := by
  induction p with
  | nil => intro q e hp _; exact absurd (List.nil_prefix) hp
  | cons n t ih =>
    intro q e hp hq
    cases q with
    | nil => exact absurd (List.nil_prefix) hq
    | cons b q' =>
      cases t with
      | nil =>
        cases e with
        | dir cs =>
          have hbn : ¬ b = n := by
            intro hc
            exact hp (by
              rw [hc]
              exact List.cons_prefix_cons.mpr ⟨rfl, List.nil_prefix⟩)
          show entLookup (b :: q') (Ent.dir (removeChild cs n)) = _
          rw [entLookup_cons, entLookup_cons, lookupChild_removeChild, if_neg hbn]
        | file => rfl
        | link tg => rfl
      | cons t2 ts =>
        cases e with
        | dir cs =>
          show entLookup (b :: q')
            (Ent.dir (cs.map (fun x => if x.1 = n then (x.1, removePath (t2 :: ts) x.2) else x))) =
            _
          rw [entLookup_cons, entLookup_cons, lookupChild_mapNamed]
          by_cases hbn : b = n
          · subst hbn
            have hp' : ¬ (t2 :: ts) <+: q' := by
              intro hc
              exact hp (List.cons_prefix_cons.mpr ⟨rfl, hc⟩)
            have hq' : ¬ q' <+: (t2 :: ts) := by
              intro hc
              exact hq (List.cons_prefix_cons.mpr ⟨rfl, hc⟩)
            cases h : lookupChild cs b with
            | none => simp
            | some v => simp [ih q' v hp' hq']
          · cases h : lookupChild cs b with
            | none => simp
            | some v => simp [hbn]
        | file => rfl
        | link tg => rfl

/-- Helper: `removePath` never creates entries: a missing path stays
missing. -/
theorem removePath_none (p : List String) :
    ∀ (q : List String) (e : Ent), entLookup q e = none →
      entLookup q (removePath p e) = none := by
  induction p with
  | nil => intro q e h; exact h
  | cons n t ih =>
    intro q e h
    cases t with
    | nil =>
      cases e with
      | dir cs =>
        cases q with
        | nil => simp [entLookup] at h
        | cons b q' =>
          show entLookup (b :: q') (Ent.dir (removeChild cs n)) = none
          rw [entLookup_cons] at h ⊢
          rw [lookupChild_removeChild]
          by_cases hbn : b = n
          · rw [if_pos hbn]; rfl
          · rw [if_neg hbn]; exact h
      | file => exact h
      | link tg => exact h
    | cons t2 ts =>
      cases e with
      | dir cs =>
        cases q with
        | nil => simp [entLookup] at h
        | cons b q' =>
          show entLookup (b :: q')
            (Ent.dir (cs.map (fun x => if x.1 = n then (x.1, removePath (t2 :: ts) x.2) else x))) =
            none
          rw [entLookup_cons] at h ⊢
          rw [lookupChild_mapNamed]
          cases hl : lookupChild cs b with
          | none => simp
          | some v =>
            rw [hl] at h
            simp at h
            by_cases hbn : b = n
            · simp [hbn, ih q' v h]
            · simp [hbn, h]
      | file => exact h
      | link tg => exact h

/-- Helper: `removePath p` keeps every strict ancestor of `p` present. -/
theorem removePath_ancestor_isSome (q : List String) :
    ∀ (p : List String) (e : Ent), q <+: p → ¬ q = p → (entLookup q e).isSome = true →
      (entLookup q (removePath p e)).isSome = true := by
  induction q with
  | nil => intro p e _ _ _; simp [entLookup]
  | cons b q' ih =>
    intro p e hpre hne hs
    cases p with
    | nil =>
      rw [List.prefix_nil] at hpre
      cases hpre
    | cons n t =>
      obtain ⟨hbn, hpre'⟩ := List.cons_prefix_cons.mp hpre
      subst hbn
      cases t with
      | nil =>
        rw [List.prefix_nil] at hpre'
        subst hpre'
        exact absurd rfl hne
      | cons t2 ts =>
        cases e with
        | dir cs =>
          show (entLookup (b :: q')
            (Ent.dir (cs.map (fun x => if x.1 = b then (x.1, removePath (t2 :: ts) x.2) else x)))).isSome =
            true
          rw [entLookup_cons] at hs ⊢
          rw [lookupChild_mapNamed]
          cases hl : lookupChild cs b with
          | none => rw [hl] at hs; simp at hs
          | some v =>
            rw [hl] at hs
            simp at hs
            have hne' : ¬ q' = t2 :: ts := by
              intro hc
              exact hne (by rw [hc])
            simp [ih (t2 :: ts) v hpre' hne' hs]
        | file => simp [entLookup] at hs
        | link tg => simp [entLookup] at hs

/-- Helper: each delete step leaves the tree alone or removes one path. -/
theorem deleteOne_fs (fail : List String → Bool) (st : Ent × List String) (m : List String) :
    (deleteOne fail st m).1 = st.1 ∨ (deleteOne fail st m).1 = removePath m st.1 := by
  simp only [deleteOne]
  cases h : entLookup m st.1 with
  | none => exact Or.inl rfl
  | some v =>
    cases v with
    | file => by_cases hf : fail m <;> simp [hf]
    | dir cs => by_cases hf : fail m <;> simp [hf]
    | link t => exact Or.inl rfl

/-- Helper: each delete step only appends to the log. -/
theorem deleteOne_logs (fail : List String → Bool) (st : Ent × List String) (m : List String) :
    ∃ l, (deleteOne fail st m).2 = st.2 ++ l := by
  simp only [deleteOne]
  cases h : entLookup m st.1 with
  | none => exact ⟨_, rfl⟩
  | some v =>
    cases v with
    | file =>
      by_cases hf : fail m
      · simp [hf]
      · exact ⟨[], by simp [hf]⟩
    | dir cs =>
      by_cases hf : fail m
      · simp [hf]
      · exact ⟨[], by simp [hf]⟩
    | link t => exact ⟨_, rfl⟩

/-- Helper: a failing delete of a file-or-directory match logs and leaves
the tree alone. -/
theorem deleteOne_eq_of_fail (fail : List String → Bool) (st : Ent × List String)
    (m : List String) (hf : fail m = true) (hk : isCopyable (entLookup m st.1) = true) :
    deleteOne fail st m = (st.1, st.2 ++ ["could not delete " ++ joinPath m]) := by
  simp only [deleteOne]
  cases h : entLookup m st.1 with
  | none => rw [h] at hk; simp [isCopyable] at hk
  | some v =>
    cases v with
    | file => simp [hf]
    | dir cs => simp [hf]
    | link t => rw [h] at hk; simp [isCopyable] at hk

/-- Helper: a successful delete of a file-or-directory match removes it
and logs nothing. -/
theorem deleteOne_eq_of_ok (fail : List String → Bool) (st : Ent × List String)
    (m : List String) (hf : fail m = false) (hk : isCopyable (entLookup m st.1) = true) :
    deleteOne fail st m = (removePath m st.1, st.2) := by
  simp only [deleteOne]
  cases h : entLookup m st.1 with
  | none => rw [h] at hk; simp [isCopyable] at hk
  | some v =>
    cases v with
    | file => simp [hf]
    | dir cs => simp [hf]
    | link t => rw [h] at hk; simp [isCopyable] at hk

/-- Helper: the delete loop only appends to the log. -/
theorem deleteFold_logs_prefix (fail : List String → Bool) :
    ∀ (ms : List (List String)) (st : Ent × List String), st.2 <+: (deleteFold fail st ms).2 := by
  intro ms
  induction ms with
  | nil => intro st; exact List.prefix_refl _
  | cons m ms ih =>
    intro st
    show st.2 <+: (deleteFold fail (deleteOne fail st m) ms).2
    obtain ⟨l, hl⟩ := deleteOne_logs fail st m
    have h2 := ih (deleteOne fail st m)
    rw [hl] at h2
    exact List.IsPrefix.trans (List.prefix_append st.2 l) h2

/-- Helper: the delete loop never creates entries. -/
theorem deleteFold_none (fail : List String → Bool) :
    ∀ (ms : List (List String)) (st : Ent × List String) (q : List String),
      entLookup q st.1 = none → entLookup q (deleteFold fail st ms).1 = none := by
  intro ms
  induction ms with
  | nil => intro st q h; exact h
  | cons m ms ih =>
    intro st q h
    show entLookup q (deleteFold fail (deleteOne fail st m) ms).1 = none
    refine ih _ q ?_
    rcases deleteOne_fs fail st m with hf | hf
    · rw [hf]; exact h
    · rw [hf]; exact removePath_none m q st.1 h

/-- Helper: full characterization of the delete loop over the matches of
one pattern: non-failing matches end up deleted (even after an earlier
failing one), unrelated paths are untouched, non-matches stay present, and
every failing delete is logged. -/
theorem deleteFold_spec (fail : List String → Bool) :
    ∀ (ms : List (List String)) (fs : Ent) (lg : List String),
      (∀ m, m ∈ ms → m ≠ []) →
      (∀ m m', m ∈ ms → m' ∈ ms → m <+: m' → m = m') →
      ms.Nodup →
      (∀ m, m ∈ ms → isCopyable (entLookup m fs) = true) →
      (∀ m, m ∈ ms → fail m = false →
        entLookup m (deleteFold fail (fs, lg) ms).1 = none) ∧
      (∀ q, (∀ m, m ∈ ms → ¬ m <+: q ∧ ¬ q <+: m) →
        entLookup q (deleteFold fail (fs, lg) ms).1 = entLookup q fs) ∧
      (∀ q, (∀ m, m ∈ ms → ¬ m <+: q) → (entLookup q fs).isSome = true →
        (entLookup q (deleteFold fail (fs, lg) ms).1).isSome = true) ∧
      (∀ m, m ∈ ms → fail m = true →
        ("could not delete " ++ joinPath m) ∈ (deleteFold fail (fs, lg) ms).2) := by
  intro ms
  induction ms with
  | nil =>
    intro fs lg _ _ _ _
    refine ⟨?_, ?_, ?_, ?_⟩
    · intro m hm; cases hm
    · intro q _; rfl
    · intro q _ h; exact h
    · intro m hm; cases hm
  | cons m0 ms ih =>
    intro fs lg hne hpair hnd hkind
    have hm0 : m0 ∈ m0 :: ms := List.mem_cons_self _ _
    have hk0 : isCopyable (entLookup m0 fs) = true := hkind m0 hm0
    have hm0nin : m0 ∉ ms := (List.nodup_cons.mp hnd).1
    have hnd' : ms.Nodup := (List.nodup_cons.mp hnd).2
    have hne' : ∀ m, m ∈ ms → m ≠ [] := fun m hm => hne m (List.mem_cons_of_mem _ hm)
    have hpair' : ∀ m m', m ∈ ms → m' ∈ ms → m <+: m' → m = m' := fun m m' hm hm' =>
      hpair m m' (List.mem_cons_of_mem _ hm) (List.mem_cons_of_mem _ hm')
    by_cases hf : fail m0 = true
    · have hstep : deleteOne fail (fs, lg) m0 =
          (fs, lg ++ ["could not delete " ++ joinPath m0]) :=
        deleteOne_eq_of_fail fail (fs, lg) m0 hf hk0
      have hun : deleteFold fail (fs, lg) (m0 :: ms) =
          deleteFold fail (fs, lg ++ ["could not delete " ++ joinPath m0]) ms := by
        show deleteFold fail (deleteOne fail (fs, lg) m0) ms = _
        rw [hstep]
      obtain ⟨ih1, ih2, ih3, ih4⟩ :=
        ih fs (lg ++ ["could not delete " ++ joinPath m0]) hne' hpair' hnd'
          (fun m hm => hkind m (List.mem_cons_of_mem _ hm))
      rw [hun]
      refine ⟨?_, ?_, ?_, ?_⟩
      · intro m hm hmf
        rcases List.mem_cons.mp hm with rfl | hm'
        · rw [hmf] at hf; cases hf
        · exact ih1 m hm' hmf
      · intro q hq
        exact ih2 q (fun m hm => hq m (List.mem_cons_of_mem _ hm))
      · intro q hq h
        exact ih3 q (fun m hm => hq m (List.mem_cons_of_mem _ hm)) h
      · intro m hm hmf
        rcases List.mem_cons.mp hm with rfl | hm'
        · have hpre := deleteFold_logs_prefix fail ms
            (fs, lg ++ ["could not delete " ++ joinPath m])
          exact hpre.subset (List.mem_append_right _ (List.mem_singleton_self _))
        · exact ih4 m hm' hmf
    · have hf' : fail m0 = false := by revert hf; cases fail m0 <;> simp
      have hstep : deleteOne fail (fs, lg) m0 = (removePath m0 fs, lg) :=
        deleteOne_eq_of_ok fail (fs, lg) m0 hf' hk0
      have hun : deleteFold fail (fs, lg) (m0 :: ms) =
          deleteFold fail (removePath m0 fs, lg) ms := by
        show deleteFold fail (deleteOne fail (fs, lg) m0) ms = _
        rw [hstep]
      have hunrel : ∀ m', m' ∈ ms → ¬ m0 <+: m' ∧ ¬ m' <+: m0 := by
        intro m' hm'
        have hne0 : m0 ≠ m' := fun hc => hm0nin (hc ▸ hm')
        refine ⟨?_, ?_⟩
        · intro hc
          exact hne0 (hpair m0 m' hm0 (List.mem_cons_of_mem _ hm') hc)
        · intro hc
          exact hne0 ((hpair m' m0 (List.mem_cons_of_mem _ hm') hm0 hc).symm)
      have hkind1 : ∀ m', m' ∈ ms → isCopyable (entLookup m' (removePath m0 fs)) = true := by
        intro m' hm'
        rw [removePath_unrelated m0 m' fs (hunrel m' hm').1 (hunrel m' hm').2]
        exact hkind m' (List.mem_cons_of_mem _ hm')
      obtain ⟨ih1, ih2, ih3, ih4⟩ := ih (removePath m0 fs) lg hne' hpair' hnd' hkind1
      rw [hun]
      refine ⟨?_, ?_, ?_, ?_⟩
      · intro m hm hmf
        rcases List.mem_cons.mp hm with rfl | hm'
        · exact deleteFold_none fail ms (removePath m fs, lg) m
            (removePath_self m fs (hne m hm))
        · exact ih1 m hm' hmf
      · intro q hq
        rw [ih2 q (fun m hm => hq m (List.mem_cons_of_mem _ hm))]
        exact removePath_unrelated m0 q fs (hq m0 hm0).1 (hq m0 hm0).2
      · intro q hq h
        refine ih3 q (fun m hm => hq m (List.mem_cons_of_mem _ hm)) ?_
        by_cases hqq : q <+: m0
        · by_cases hqe : q = m0
          · exact absurd (hqe.symm ▸ List.prefix_refl m0) (hq m0 hm0)
          · exact removePath_ancestor_isSome q m0 fs hqq hqe h
        · rw [removePath_unrelated m0 q fs (hq m0 hm0) hqq]
          exact h
      · intro m hm hmf
        rcases List.mem_cons.mp hm with rfl | hm'
        · exact absurd hmf hf
        · exact ih4 m hm' hmf

/-- Helper: one include-loop iteration succeeds on a directory destination
whose pre-existing entry (if any) is a directory, and results in the
source entry verbatim at that name (directories recursively with links
preserved, files copied), everything else untouched. -/
theorem includeItem_spec (envRoot dest : Ent) (i : String)
    (hd : isDirE dest = true)
    (hs : isCopyable (entLookup [i] envRoot) = true)
    (ho : dirOrAbsent (entLookup [i] dest) = true) :
    ∃ d, includeItem envRoot dest i = Except.ok d ∧
      entLookup [i] d = entLookup [i] envRoot ∧
      (∀ b, ¬ b = i → entLookup [b] d = entLookup [b] dest) ∧
      isDirE d = true := by
  cases dest with
  | file => simp [isDirE] at hd
  | link t => simp [isDirE] at hd
  | dir cs =>
    have hcopy : ∀ (cs2 : List (String × Ent)),
        ∃ v, copyEntry envRoot (Ent.dir cs2) i = Except.ok (setChild1 (Ent.dir cs2) i v) ∧
          some v = entLookup [i] envRoot := by
      intro cs2
      cases hsv : entLookup [i] envRoot with
      | none => rw [hsv] at hs; simp [isCopyable] at hs
      | some v =>
        cases v with
        | file => exact ⟨Ent.file, by simp [copyEntry, hsv], rfl⟩
        | dir cs3 => exact ⟨Ent.dir cs3, by simp [copyEntry, hsv], rfl⟩
        | link t => rw [hsv] at hs; simp [isCopyable] at hs
    cases hdv : entLookup [i] (Ent.dir cs) with
    | none =>
      obtain ⟨v, hcv, hv⟩ := hcopy cs
      refine ⟨setChild1 (Ent.dir cs) i v, ?_, ?_, ?_, setChild1_isDir cs i v⟩
      · simp [includeItem, hdv, hcv]
      · rw [setChild1_lookup_self, hv]
      · intro b hb
        exact setChild1_lookup_other (Ent.dir cs) i b v hb
    | some e0 =>
      cases e0 with
      | file => rw [hdv] at ho; simp [dirOrAbsent] at ho
      | link t => rw [hdv] at ho; simp [dirOrAbsent] at ho
      | dir cs0 =>
        have hrm : rmtreeE (Ent.dir cs) [i] = Except.ok (Ent.dir (removeChild cs i)) := by
          simp [rmtreeE, hdv]
          rfl
        obtain ⟨v, hcv, hv⟩ := hcopy (removeChild cs i)
        refine ⟨setChild1 (Ent.dir (removeChild cs i)) i v, ?_, ?_, ?_, by rfl⟩
        · simp [includeItem, hdv, hrm, hcv]
        · rw [setChild1_lookup_self, hv]
        · intro b hb
          rw [setChild1_lookup_other (Ent.dir (removeChild cs i)) i b v hb]
          rw [entLookup_single, entLookup_single, lookupChild_removeChild, if_neg hb]

/-- Helper: the include loop succeeds under the corresponding hypotheses
on every item, copies each included entry verbatim, and leaves other
names untouched. -/
theorem includePass_spec (envRoot : Ent) :
    ∀ (items : List String) (dest : Ent),
      isDirE dest = true →
      items.Nodup →
      (∀ i, i ∈ items → isCopyable (entLookup [i] envRoot) = true) →
      (∀ i, i ∈ items → dirOrAbsent (entLookup [i] dest) = true) →
      ∃ d, includePass envRoot dest items = Except.ok d ∧
        (∀ i, i ∈ items → entLookup [i] d = entLookup [i] envRoot) ∧
        (∀ b, b ∉ items → entLookup [b] d = entLookup [b] dest) ∧
        isDirE d = true := by
  intro items
  induction items with
  | nil =>
    intro dest hd _ _ _
    refine ⟨dest, rfl, ?_, ?_, hd⟩
    · intro i hi; cases hi
    · intro b _; rfl
  | cons i0 items ih =>
    intro dest hd hnd hsrc hpre
    have hi0 : i0 ∈ i0 :: items := List.mem_cons_self _ _
    obtain ⟨d1, hd1, hself, hother, hdir1⟩ :=
      includeItem_spec envRoot dest i0 hd (hsrc i0 hi0) (hpre i0 hi0)
    have hnotin : i0 ∉ items := (List.nodup_cons.mp hnd).1
    obtain ⟨d, hdp, h1, h2, hdird⟩ := ih d1 hdir1 (List.nodup_cons.mp hnd).2
      (fun i hi => hsrc i (List.mem_cons_of_mem _ hi))
      (fun i hi => by
        have hne : ¬ i = i0 := fun hc => hnotin (hc ▸ hi)
        rw [hother i hne]
        exact hpre i (List.mem_cons_of_mem _ hi))
    refine ⟨d, ?_, ?_, ?_, hdird⟩
    · show (match includeItem envRoot dest i0 with
        | Except.ok d => includePass envRoot d items
        | Except.error e => Except.error e) = Except.ok d
      rw [hd1]
      exact hdp
    · intro i hi
      rcases List.mem_cons.mp hi with rfl | hi'
      · rw [h2 i hnotin, hself]
      · exact h1 i hi'
    · intro b hb
      have hb0 : ¬ b = i0 := fun hc => hb (hc ▸ hi0)
      have hbs : b ∉ items := fun hc => hb (List.mem_cons_of_mem _ hc)
      rw [h2 b hbs, hother b hb0]

/-- Helper: splitting never yields the empty component list. -/
theorem splitSl_ne_nil (l : List Char) : splitSl l ≠ [] := by
  cases l with
  | nil => simp [splitSl]
  | cons c cs =>
    show splitSlCons c (splitSl cs) ≠ []
    unfold splitSlCons
    split
    · simp
    · cases h : splitSl cs <;> simp

/-- Helper: every glob match has exactly one name per pattern component. -/
theorem globFromFuel_length :
    ∀ (f : Nat) (comps : List (List Char)) (e : Ent) (m : List String),
      m ∈ globFromFuel f comps e → m.length = comps.length := by
  intro f
  induction f with
  | zero =>
    intro comps e m hm
    cases comps with
    | nil =>
      simp only [globFromFuel, List.mem_singleton] at hm
      subst hm; rfl
    | cons c rest => simp [globFromFuel] at hm
  | succ f ih =>
    intro comps e m hm
    cases comps with
    | nil =>
      simp only [globFromFuel, List.mem_singleton] at hm
      subst hm; rfl
    | cons c rest =>
      cases e with
      | dir cs =>
        simp only [globFromFuel] at hm
        split at hm
        · obtain ⟨x, hx, hmx⟩ := List.mem_flatMap.mp hm
          by_cases hcond : (hideOk c x.1 && fnmatchL c x.1.toList) = true
          · rw [if_pos hcond] at hmx
            obtain ⟨m', hm', rfl⟩ := List.mem_map.mp hmx
            simp [ih rest x.2 m' hm']
          · rw [if_neg hcond] at hmx
            cases hmx
        · cases hl : lookupChild cs (String.mk c) with
          | some ce =>
            rw [hl] at hm
            obtain ⟨m', hm', rfl⟩ := List.mem_map.mp hm
            simp [ih rest ce m' hm']
          | none => rw [hl] at hm; cases hm
      | file =>
        simp only [globFromFuel] at hm
        split at hm <;> cases hm
      | link t =>
        simp only [globFromFuel] at hm
        split at hm <;> cases hm

/-- Helper: every match of `globRel` is a nonempty path. -/
theorem globRel_ne_nil (e : Ent) (pattern : String) (m : List String)
    (hm : m ∈ globRel e pattern) : m ≠ [] := by
  intro hc
  have hlen := globFromFuel_length _ _ _ _ hm
  rw [hc] at hlen
  have hpos : 0 < (splitSl pattern.toList).length :=
    List.length_pos.mpr (splitSl_ne_nil pattern.toList)
  rw [← hlen] at hpos
  simp at hpos

/-- Helper: distinct matches of one pattern are never prefixes of one
another (they all have the same number of components). -/
theorem globRel_pairwise (e : Ent) (pattern : String) (m m' : List String)
    (hm : m ∈ globRel e pattern) (hm' : m' ∈ globRel e pattern) (hp : m <+: m') : m = m' := by
  refine hp.eq_of_length ?_
  rw [globFromFuel_length _ _ _ _ hm, globFromFuel_length _ _ _ _ hm']

/-- C5 (amended): the Resource Copier.  (1) For each included entry — no
duplicates, each an existing file or directory of the source environment —
any pre-existing same-named destination *directory* is removed recursively
and the source entry is then copied verbatim (directories recursively,
symlinks inside them preserved as links), other names untouched; a
pre-existing destination *file* instead makes the recursive delete raise
(see the counterexample), which is the one correction to the claim.
(2) After the include pass, each exclude pattern's matches are deleted
(files directly, directories recursively): every non-failing match is
gone afterwards — even when an earlier match's deletion failed — every
path unrelated to all matches is untouched, every present path not under
a match is still present, and each failing deletion is logged. -/
theorem bundle_conda_env_C5
    (envRoot destRoot : Ent) (incl excl : List String) (fail : List String → Bool)
    (fs : Ent) (lg : List String) (pat : String)
    (hdest : isDirE destRoot = true)
    (hnd : (if incl = [] then listdirE envRoot else incl).Nodup)
    (hsrc : ∀ i, i ∈ (if incl = [] then listdirE envRoot else incl) →
      isCopyable (entLookup [i] envRoot) = true)
    (hpre : ∀ i, i ∈ (if incl = [] then listdirE envRoot else incl) →
      dirOrAbsent (entLookup [i] destRoot) = true)
    (hnodupg : (globRel fs pat).Nodup)
    (hkind : ∀ m, m ∈ globRel fs pat → isCopyable (entLookup m fs) = true) :
    (∃ d, includePass envRoot destRoot (if incl = [] then listdirE envRoot else incl) =
        Except.ok d ∧
      (∀ i, i ∈ (if incl = [] then listdirE envRoot else incl) →
        entLookup [i] d = entLookup [i] envRoot) ∧
      (∀ b, b ∉ (if incl = [] then listdirE envRoot else incl) →
        entLookup [b] d = entLookup [b] destRoot) ∧
      bundle_conda_env envRoot destRoot incl excl fail =
        Except.ok (excludeFold fail (d, []) excl)) ∧
    ((∀ m, m ∈ globRel fs pat → fail m = false →
        entLookup m (deletePattern fail (fs, lg) pat).1 = none) ∧
      (∀ q, (∀ m, m ∈ globRel fs pat → ¬ m <+: q ∧ ¬ q <+: m) →
        entLookup q (deletePattern fail (fs, lg) pat).1 = entLookup q fs) ∧
      (∀ q, (∀ m, m ∈ globRel fs pat → ¬ m <+: q) → (entLookup q fs).isSome = true →
        (entLookup q (deletePattern fail (fs, lg) pat).1).isSome = true) ∧
      (∀ m, m ∈ globRel fs pat → fail m = true →
        ("could not delete " ++ joinPath m) ∈ (deletePattern fail (fs, lg) pat).2)) := by
  constructor
  · obtain ⟨d, hd, h1, h2, _⟩ := includePass_spec envRoot
      (if incl = [] then listdirE envRoot else incl) destRoot hdest hnd hsrc hpre
    refine ⟨d, hd, h1, h2, ?_⟩
    show (match includePass envRoot destRoot (if incl = [] then listdirE envRoot else incl) with
      | Except.ok d => Except.ok (excludeFold fail (d, []) excl)
      | Except.error e => Except.error e) = Except.ok (excludeFold fail (d, []) excl)
    rw [hd]
  · exact deleteFold_spec fail (globRel fs pat) fs lg
      (fun m hm => globRel_ne_nil fs pat m hm)
      (fun m m' hm hm' => globRel_pairwise fs pat m m' hm hm')
      hnodupg hkind

/-- C5 counterexample: a pre-existing *file* at an included name is not
"removed then replaced" as the claim states — `shutil.rmtree` on a file
raises `NotADirectoryError` and the copy step fails. -/
theorem bundle_conda_env_C5_counterexample :
    bundle_conda_env (Ent.dir [("x", Ent.file)]) (Ent.dir [("x", Ent.file)]) ["x"] []
      (fun _ => false) = Except.error "NotADirectoryError" := rfl

/-- C5 witness: the amended theorem at a concrete environment (default
include list, the default qt4 exclude pattern, no failing deletes). -/
theorem bundle_conda_env_C5_witness :
    (∃ d, includePass sampleEnv sampleDest
        (if ([] : List String) = [] then listdirE sampleEnv else []) = Except.ok d ∧
      (∀ i, i ∈ (if ([] : List String) = [] then listdirE sampleEnv else []) →
        entLookup [i] d = entLookup [i] sampleEnv) ∧
      (∀ b, b ∉ (if ([] : List String) = [] then listdirE sampleEnv else []) →
        entLookup [b] d = entLookup [b] sampleDest) ∧
      bundle_conda_env sampleEnv sampleDest [] ["bin/*-qt4*"] (fun _ => false) =
        Except.ok (excludeFold (fun _ => false) (d, []) ["bin/*-qt4*"])) ∧
    ((∀ m, m ∈ globRel sampleEnv "bin/*-qt4*" → (fun _ => false : List String → Bool) m = false →
        entLookup m (deletePattern (fun _ => false) (sampleEnv, []) "bin/*-qt4*").1 = none) ∧
      (∀ q, (∀ m, m ∈ globRel sampleEnv "bin/*-qt4*" → ¬ m <+: q ∧ ¬ q <+: m) →
        entLookup q (deletePattern (fun _ => false) (sampleEnv, []) "bin/*-qt4*").1 =
          entLookup q sampleEnv) ∧
      (∀ q, (∀ m, m ∈ globRel sampleEnv "bin/*-qt4*" → ¬ m <+: q) →
        (entLookup q sampleEnv).isSome = true →
        (entLookup q (deletePattern (fun _ => false) (sampleEnv, []) "bin/*-qt4*").1).isSome =
          true) ∧
      (∀ m, m ∈ globRel sampleEnv "bin/*-qt4*" → (fun _ => false : List String → Bool) m = true →
        ("could not delete " ++ joinPath m) ∈
          (deletePattern (fun _ => false) (sampleEnv, []) "bin/*-qt4*").2)) :=
  bundle_conda_env_C5 sampleEnv sampleDest [] ["bin/*-qt4*"] (fun _ => false)
    sampleEnv [] "bin/*-qt4*" rfl (by decide) (by decide) (by decide) (by decide) (by decide)
